import Mathlib

/-!
Formal model of the speccritic trust-boundary core, translated from the Go
sources: the schema data model (`internal/schema/types.go`), the scoring and
verdict engine and severity filter (`internal/review/score.go`), the output
validator (`internal/schema/validate/validate.go`), the repair orchestrator
and its error/exit-code handling (`cmd/speccritic/main.go`), and the patch
anchor (`internal/patch/patch.go`).

Machine integers: Go `int` is 64-bit here; all quantities involved (scores,
counts, line numbers) stay far inside that range on any input the functions
can receive, so they are modelled as `Int`/`Nat` without wraparound.
-/

namespace Str

/-- Models Go `strings.HasPrefix` at the rune-list level: `sub` is a prefix of `l`. -/
def hasPrefixCL : List Char → List Char → Bool
  | [], _ => true
  | _ :: _, [] => false
  | a :: sub, b :: l => a == b && hasPrefixCL sub l

/-- Models Go `strings.Contains` at the rune-list level: `sub` occurs contiguously in `l`.
For valid UTF-8 strings, byte-level containment used by Go coincides with rune-level
containment (UTF-8 is self-synchronizing). -/
def hasInfixCL : List Char → List Char → Bool
  | sub, [] => hasPrefixCL sub []
  | sub, c :: t => hasPrefixCL sub (c :: t) || hasInfixCL sub t

/-- Go `strings.Contains(s, sub)`. -/
def stringsContains (s sub : String) : Bool :=
  hasInfixCL sub.data s.data

/-- Go `strings.HasPrefix(s, pre)`. -/
def stringsHasPrefix (s pre : String) : Bool :=
  hasPrefixCL pre.data s.data

end Str

namespace schema

/-- Go `type Severity string` (internal/schema/types.go). -/
abbrev Severity := String

def SeverityInfo : Severity := "INFO"

def SeverityWarn : Severity := "WARN"

def SeverityCritical : Severity := "CRITICAL"

/-- Go `type Verdict string`. -/
abbrev Verdict := String

def VerdictValid : Verdict := "VALID"

def VerdictValidWithGaps : Verdict := "VALID_WITH_GAPS"

def VerdictInvalid : Verdict := "INVALID"

/-- Go `type Category string`. -/
abbrev Category := String

def CategoryNonTestableRequirement : Category := "NON_TESTABLE_REQUIREMENT"

def CategoryAmbiguousBehavior : Category := "AMBIGUOUS_BEHAVIOR"

def CategoryContradiction : Category := "CONTRADICTION"

def CategoryMissingFailureMode : Category := "MISSING_FAILURE_MODE"

def CategoryUndefinedInterface : Category := "UNDEFINED_INTERFACE"

def CategoryMissingInvariant : Category := "MISSING_INVARIANT"

def CategoryScopeLeak : Category := "SCOPE_LEAK"

def CategoryOrderingUndefined : Category := "ORDERING_UNDEFINED"

def CategoryTerminologyInconsistent : Category := "TERMINOLOGY_INCONSISTENT"

def CategoryUnspecifiedConstraint : Category := "UNSPECIFIED_CONSTRAINT"

def CategoryAssumptionRequired : Category := "ASSUMPTION_REQUIRED"

/-- Go `IsValidCategory`: membership in the 11 fixed defect categories. -/
def IsValidCategory (c : Category) : Bool :=
  c == CategoryNonTestableRequirement ||
  c == CategoryAmbiguousBehavior ||
  c == CategoryContradiction ||
  c == CategoryMissingFailureMode ||
  c == CategoryUndefinedInterface ||
  c == CategoryMissingInvariant ||
  c == CategoryScopeLeak ||
  c == CategoryOrderingUndefined ||
  c == CategoryTerminologyInconsistent ||
  c == CategoryUnspecifiedConstraint ||
  c == CategoryAssumptionRequired

/-- Go `schema.Evidence`. Line numbers come from untrusted JSON, hence `Int`. -/
structure Evidence where
  path : String
  lineStart : Int
  lineEnd : Int
  quote : String
deriving DecidableEq

/-- Go `schema.Issue`. -/
structure Issue where
  id : String
  severity : Severity
  category : Category
  title : String
  description : String
  evidence : List Evidence
  impact : String
  recommendation : String
  blocking : Bool
  tags : List String
deriving DecidableEq

/-- Go `schema.Question`. -/
structure Question where
  id : String
  severity : Severity
  question : String
  whyNeeded : String
  blocks : List String
  evidence : List Evidence
deriving DecidableEq

/-- Go `schema.Patch`: the JSON-serializable patch suggestion from the LLM. -/
structure Patch where
  issueID : String
  before : String
  after : String
deriving DecidableEq

/-- Go `schema.Report`, restricted to the validated container (`issues`,
`questions`, `patches`). The remaining Go fields (`tool`, `version`, `input`,
`summary`, `meta`) are populated by the caller after validation and are
modelled separately (`schema.Summary`, `main.summarizeAndFilter`). -/
structure Report where
  issues : List Issue
  questions : List Question
  patches : List Patch
deriving DecidableEq

/-- Go `schema.Summary`: verdict, score, and the three pre-filter counts. -/
structure Summary where
  verdict : Verdict
  score : Int
  criticalCount : Nat
  warnCount : Nat
  infoCount : Nat
deriving DecidableEq

end schema

namespace review

/-- Loop body of Go `review.Score` (internal/review/score.go lines 10-19). -/
def scoreStep (score : Int) (issue : schema.Issue) : Int :=
  if issue.severity == schema.SeverityCritical then score - 20
  else if issue.severity == schema.SeverityWarn then score - 7
  else if issue.severity == schema.SeverityInfo then score - 2
  else score

/-- Go `review.Score`: start at 100, subtract per-severity deductions, clamp at 0. -/
def Score (issues : List schema.Issue) : Int :=
  let score := issues.foldl scoreStep 100
  if score < 0 then 0 else score

/-- Go `review.Verdict`: the early-return loops become `List.any` in order. -/
def Verdict (issues : List schema.Issue) (questions : List schema.Question) : schema.Verdict :=
  if issues.any (fun issue => issue.severity == schema.SeverityCritical) then schema.VerdictInvalid
  else if questions.any (fun q => q.severity == schema.SeverityCritical) then schema.VerdictInvalid
  else if issues.any (fun issue => issue.severity == schema.SeverityWarn) then schema.VerdictValidWithGaps
  else if issues.length > 0 then schema.VerdictValidWithGaps
  else schema.VerdictValid

/-- Loop body of Go `review.Counts` (accumulator is (critical, warn, info)). -/
def countsStep (c : Nat × Nat × Nat) (issue : schema.Issue) : Nat × Nat × Nat :=
  if issue.severity == schema.SeverityCritical then (c.1 + 1, c.2.1, c.2.2)
  else if issue.severity == schema.SeverityWarn then (c.1, c.2.1 + 1, c.2.2)
  else if issue.severity == schema.SeverityInfo then (c.1, c.2.1, c.2.2 + 1)
  else c

/-- Go `review.Counts`: pre-filter (critical, warn, info) tallies. -/
def Counts (issues : List schema.Issue) : Nat × Nat × Nat :=
  issues.foldl countsStep (0, 0, 0)

/-- Go `review.severityOrdinal`: INFO=0, WARN=1, CRITICAL=2, otherwise -1. -/
def severityOrdinal (s : schema.Severity) : Int :=
  if s == schema.SeverityInfo then 0
  else if s == schema.SeverityWarn then 1
  else if s == schema.SeverityCritical then 2
  else -1

/-- Go `review.meetsSeverity`. -/
def meetsSeverity (s threshold : schema.Severity) : Bool :=
  severityOrdinal s ≥ severityOrdinal threshold

/-- Go `review.FilterBySeverity`: identity at INFO threshold, else keep
issues meeting the threshold (the append loop becomes `List.filter`). -/
def FilterBySeverity (issues : List schema.Issue) (threshold : schema.Severity) : List schema.Issue :=
  if threshold == schema.SeverityInfo then issues
  else issues.filter (fun issue => meetsSeverity issue.severity threshold)

end review

/-- CRITICAL tally of an issue list, as counted by the specification. -/
def countCritical (issues : List schema.Issue) : Nat :=
  issues.countP (fun issue => issue.severity == schema.SeverityCritical)

/-- WARN tally of an issue list, as counted by the specification. -/
def countWarn (issues : List schema.Issue) : Nat :=
  issues.countP (fun issue => issue.severity == schema.SeverityWarn)

/-- INFO tally of an issue list, as counted by the specification. -/
def countInfo (issues : List schema.Issue) : Nat :=
  issues.countP (fun issue => issue.severity == schema.SeverityInfo)

/-- A concrete CRITICAL issue used to instantiate universally quantified theorems. -/
def sampleCriticalIssue : schema.Issue :=
  ⟨"ISSUE-0001", "CRITICAL", "CONTRADICTION", "title", "", [], "", "", false, []⟩

/-- A concrete WARN issue used to instantiate universally quantified theorems. -/
def sampleWarnIssue : schema.Issue :=
  ⟨"ISSUE-0002", "WARN", "AMBIGUOUS_BEHAVIOR", "title", "", [], "", "", false, []⟩

/-- A concrete INFO issue used to instantiate universally quantified theorems. -/
def sampleInfoIssue : schema.Issue :=
  ⟨"ISSUE-0003", "INFO", "SCOPE_LEAK", "title", "", [], "", "", false, []⟩

/-- A concrete CRITICAL question used to instantiate universally quantified theorems. -/
def sampleCriticalQuestion : schema.Question :=
  ⟨"Q-0001", "CRITICAL", "what does X mean", "", [], []⟩

namespace validate

/-- Structured validation error, one constructor per `fmt.Errorf` site in
internal/schema/validate/validate.go (plus the JSON-parse failure from `Parse`).
Each carries the location prefix and the offending values. -/
inductive VErr where
  | jsonParseFailed (detail : String)
  | issueIDFormat (pre id : String)
  | questionIDFormat (pre id : String)
  | invalidSeverity (pre sev : String)
  | unknownCategory (pre cat : String)
  | titleRequired (pre : String)
  | questionTextRequired (pre : String)
  | lineStartTooSmall (pre : String) (lineStart : Int)
  | lineEndBeforeStart (pre : String) (lineEnd lineStart : Int)
  | lineEndExceedsCount (pre : String) (lineEnd lineCount : Int)
deriving DecidableEq

/-- Models Go `%q` formatting. Exact for strings containing no characters that
`%q` escapes; every fixed category label it is applied to in the repair prompt
is such a string. -/
def goQuote (s : String) : String := "\"" ++ s ++ "\""

/-- Rendered error text of each validation error, mirroring the `fmt.Errorf`
format strings in validate.go and the wrapping in `Parse`. -/
def VErr.message : VErr → String
  | .jsonParseFailed d => "JSON parse failed: " ++ d
  | .issueIDFormat pre id => pre ++ ": id " ++ goQuote id ++ " does not match ISSUE-XXXX format"
  | .questionIDFormat pre id => pre ++ ": id " ++ goQuote id ++ " does not match Q-XXXX format"
  | .invalidSeverity pre sev => pre ++ ": invalid severity " ++ goQuote sev ++ " (must be INFO, WARN, or CRITICAL)"
  | .unknownCategory pre cat => pre ++ ": unknown category " ++ goQuote cat
  | .titleRequired pre => pre ++ ": title is required"
  | .questionTextRequired pre => pre ++ ": question text is required"
  | .lineStartTooSmall pre ls => pre ++ ": line_start " ++ toString ls ++ " must be ≥ 1"
  | .lineEndBeforeStart pre le ls => pre ++ ": line_end " ++ toString le ++ " must be ≥ line_start " ++ toString ls
  | .lineEndExceedsCount pre le lc => pre ++ ": line_end " ++ toString le ++ " exceeds spec line count " ++ toString lc

/-- Go regexp `^ISSUE-\d{4}$` (issueIDPattern): the literal prefix followed by
exactly four ASCII digits (Go's `\d`). -/
def isIssueID (s : String) : Bool :=
  Str.hasPrefixCL "ISSUE-".data s.data &&
    (s.data.drop 6).length == 4 && (s.data.drop 6).all Char.isDigit

/-- Go regexp `^Q-\d{4}$` (questionIDPattern). -/
def isQuestionID (s : String) : Bool :=
  Str.hasPrefixCL "Q-".data s.data &&
    (s.data.drop 2).length == 4 && (s.data.drop 2).all Char.isDigit

/-- Go `validateSeverity`. -/
def validateSeverity (s : schema.Severity) (pre : String) : Except VErr Unit :=
  if s == schema.SeverityInfo || s == schema.SeverityWarn || s == schema.SeverityCritical then .ok ()
  else .error (.invalidSeverity pre s)

/-- Go `validateEvidence`. -/
def validateEvidence (ev : schema.Evidence) (pre : String) (lineCount : Int) : Except VErr Unit :=
  if ev.lineStart < 1 then .error (.lineStartTooSmall pre ev.lineStart)
  else if ev.lineEnd < ev.lineStart then .error (.lineEndBeforeStart pre ev.lineEnd ev.lineStart)
  else if lineCount > 0 ∧ ev.lineEnd > lineCount then .error (.lineEndExceedsCount pre ev.lineEnd lineCount)
  else .ok ()

/-- The index-threading fail-fast loop shared (with different bodies) by
`validateReport`'s issue and question loops and the evidence loops inside
`validateIssue`/`validateQuestion`: run `f` on each element with its index,
stopping at the first error. -/
def validateSeq {α : Type} (f : α → Nat → Int → Except VErr Unit) :
    List α → Nat → Int → Except VErr Unit
  | [], _, _ => .ok ()
  | x :: rest, idx, lineCount =>
    match f x idx lineCount with
    | .error e => .error e
    | .ok _ => validateSeq f rest (idx + 1) lineCount

/-- The evidence loop shared by `validateIssue` and `validateQuestion`,
threading the running index used in the error prefix. -/
def validateEvidenceList (evs : List schema.Evidence) (pre : String) (j : Nat) (lineCount : Int) :
    Except VErr Unit :=
  validateSeq
    (fun ev j lineCount => validateEvidence ev (pre ++ ".evidence[" ++ toString j ++ "]") lineCount)
    evs j lineCount

/-- Go `validateIssue`. -/
def validateIssue (issue : schema.Issue) (idx : Nat) (lineCount : Int) : Except VErr Unit :=
  let pre := "issue[" ++ toString idx ++ "]"
  if !(isIssueID issue.id) then .error (.issueIDFormat pre issue.id)
  else
    match validateSeverity issue.severity pre with
    | .error e => .error e
    | .ok _ =>
      if !(schema.IsValidCategory issue.category) then .error (.unknownCategory pre issue.category)
      else if issue.title == "" then .error (.titleRequired pre)
      else validateEvidenceList issue.evidence pre 0 lineCount

/-- Go `validateQuestion`. -/
def validateQuestion (q : schema.Question) (idx : Nat) (lineCount : Int) : Except VErr Unit :=
  let pre := "question[" ++ toString idx ++ "]"
  if !(isQuestionID q.id) then .error (.questionIDFormat pre q.id)
  else
    match validateSeverity q.severity pre with
    | .error e => .error e
    | .ok _ =>
      if q.question == "" then .error (.questionTextRequired pre)
      else validateEvidenceList q.evidence pre 0 lineCount

/-- Go `validateReport`: all issues in order, then all questions in order,
stopping at the first error. -/
def validateReport (r : schema.Report) (lineCount : Int) : Except VErr Unit :=
  match validateSeq validateIssue r.issues 0 lineCount with
  | .error e => .error e
  | .ok _ => validateSeq validateQuestion r.questions 0 lineCount

/-- Go `validate.Parse`. The markdown-fence stripping and `json.Unmarshal`
steps are abstracted into the decode outcome `content`: `.error msg` models an
unmarshal failure with message `msg`, `.ok report` models a successful decode
into the Report shape. Validation then runs on the decoded report. -/
def Parse (content : Except String schema.Report) (lineCount : Int) : Except VErr schema.Report :=
  match content with
  | .error msg => .error (.jsonParseFailed msg)
  | .ok report =>
    match validateReport report lineCount with
    | .error e => .error e
    | .ok _ => .ok report

end validate

namespace main

/-- Go `llm.Request` (the fields used by the repair orchestrator). Temperature
is never computed on, only copied, so its numeric representation is immaterial;
it is modelled as a rational. -/
structure Request where
  systemPrompt : String
  userPrompt : String
  temperature : ℚ
  maxTokens : Int
deriving DecidableEq

/-- Go `llm.Response`, with raw content abstracted to its decode outcome
(see `validate.Parse`). -/
structure Response where
  content : Except String schema.Report
  model : String

/-- The three error shapes `callWithRetry` can return, one per `fmt.Errorf`
site: transport failure on the first call, transport failure on the repair
call, and validation failure after the repair. The first two are the
"provider unreachable" (ProviderError) kind, the third is the
ModelOutputInvalidError kind. -/
inductive CallErr where
  | llmCallFailed (transportErr : String)
  | llmRetryCallFailed (transportErr : String)
  | invalidModelOutputAfterRetry (parseErr : validate.VErr)
deriving DecidableEq

/-- Go `sanitizeErrForPrompt`: classify a validation error message into a
fixed category string, matching the switch in cmd/speccritic/main.go. -/
def sanitizeErrForPrompt (msg : String) : String :=
  if Str.stringsHasPrefix msg "JSON parse failed" then "JSON syntax error"
  else if Str.stringsContains msg "invalid severity" then
    "invalid enum value (severity must be INFO, WARN, or CRITICAL)"
  else if Str.stringsContains msg "unknown category" then
    "invalid enum value (unknown defect category)"
  else if Str.stringsContains msg "title is required" ||
      Str.stringsContains msg "question text is required" then "missing required field"
  else if Str.stringsContains msg "does not match ISSUE-" ||
      Str.stringsContains msg "does not match Q-" then "invalid ID format"
  else if Str.stringsContains msg "line_start" || Str.stringsContains msg "line_end" then
    "invalid line range in evidence"
  else "schema validation error"

/-- The suffix appended to the user prompt for the repair attempt
(the `fmt.Sprintf` in `callWithRetry`, with `%q` as `goQuote`). -/
def repairSuffix (category : String) : String :=
  "\n\nYour previous response failed schema validation (error category: " ++
    validate.goQuote category ++ "). Return only valid JSON matching the schema above."

/-- Go `callWithRetry`, instrumented with the list of requests passed to
`Complete` in order. The provider is modelled as a function from the call
index (0 = first attempt, 1 = repair) and the request to a transport outcome,
covering stateful providers. -/
def callWithRetry (complete : Nat → Request → Except String Response) (req : Request)
    (lineCount : Int) : Except CallErr (schema.Report × String) × List Request :=
  match complete 0 req with
  | .error e => (.error (.llmCallFailed e), [req])
  | .ok resp =>
    match validate.Parse resp.content lineCount with
    | .ok report => (.ok (report, resp.model), [req])
    | .error parseErr =>
      let repairReq := { req with
        userPrompt := req.userPrompt ++ repairSuffix (sanitizeErrForPrompt parseErr.message) }
      match complete 1 repairReq with
      | .error e => (.error (.llmRetryCallFailed e), [req, repairReq])
      | .ok resp2 =>
        match validate.Parse resp2.content lineCount with
        | .ok report => (.ok (report, resp2.model), [req, repairReq])
        | .error parseErr2 => (.error (.invalidModelOutputAfterRetry parseErr2), [req, repairReq])

/-- Exit-code mapping applied by `runCheck` to an error from `callWithRetry`
(cmd/speccritic/main.go lines 170-173): `codeError(5, "%s", callErr)`
regardless of which error shape occurred. -/
def runCheckCallErrorExitCode (_callErr : CallErr) : Int := 5

/-- Go `parseSeverityThreshold`. -/
def parseSeverityThreshold (s : String) : schema.Severity :=
  if s == "warn" then schema.SeverityWarn
  else if s == "critical" then schema.SeverityCritical
  else schema.SeverityInfo

/-- Steps 12-14 of Go `runCheck`: compute score, verdict, and counts from ALL
issues, build the summary, then filter the emitted issues list by the
severity threshold. Returns (summary, filtered issues). -/
def summarizeAndFilter (issues : List schema.Issue) (questions : List schema.Question)
    (severityThreshold : String) : schema.Summary × List schema.Issue :=
  let score := review.Score issues
  let verdict := review.Verdict issues questions
  let counts := review.Counts issues
  let summary : schema.Summary :=
    ⟨verdict, score, counts.1, counts.2.1, counts.2.2⟩
  (summary, review.FilterBySeverity issues (parseSeverityThreshold severityThreshold))

/-- A provider whose transport fails on every call, used to exercise the
ProviderError path at a concrete input. -/
def completeAlwaysUnreachable : Nat → Request → Except String Response :=
  fun _ _ => .error "connection refused"

/-- A provider that always returns undecodable content, used to exercise the
ModelOutputInvalidError path at a concrete input. -/
def completeAlwaysGarbage : Nat → Request → Except String Response :=
  fun _ _ => .ok ⟨.error "unexpected end of JSON input", "test-model"⟩

/-- A concrete request used to instantiate orchestrator theorems. -/
def sampleRequest : Request := ⟨"sys", "user", 1/5, 4096⟩

end main

namespace patch

/-- Go `strings.ReplaceAll(s, "\r\n", "\n")` at the rune-list level
(left-to-right, non-overlapping). -/
def replaceCRLF : List Char → List Char
  | [] => []
  | '\r' :: '\n' :: t => '\n' :: replaceCRLF t
  | c :: t => c :: replaceCRLF t

/-- Go `strings.Split(s, "\n")` at the rune-list level: n newlines yield
n+1 pieces. -/
def splitLines : List Char → List (List Char)
  | [] => [[]]
  | '\n' :: t => [] :: splitLines t
  | c :: t =>
    match splitLines t with
    | [] => [[c]]
    | line :: rest => (c :: line) :: rest

/-- Trailing-whitespace trim of one line: Go `strings.TrimRight(line, " \t")`. -/
def trimRightCL (line : List Char) : List Char :=
  (line.reverse.dropWhile (fun c => c == ' ' || c == '\t')).reverse

/-- Go `strings.Join(lines, "\n")` at the rune-list level. -/
def joinLines : List (List Char) → List Char
  | [] => []
  | [l] => l
  | l :: ls => l ++ '\n' :: joinLines ls

/-- Go `patch.normalize`: CRLF to LF, split into lines, trim trailing
spaces/tabs per line, re-join with LF. -/
def normalize (s : String) : String :=
  String.mk (joinLines ((splitLines (replaceCRLF s.data)).map trimRightCL))

/-- Go `patch.diffPatch`: the internal processing type for patch generation. -/
structure diffPatch where
  issueID : String
  before : String
  after : String
deriving DecidableEq

/-- Go `patch.resolve`: exact substring pass over the untouched spec, then
normalized pass over the pre-normalized spec. Go's `(diffPatch{}, false)`
failure result is modelled as `none`. -/
def resolve (p : schema.Patch) (specRaw normSpec : String) : Option diffPatch :=
  let normBefore := normalize p.before
  let normAfter := normalize p.after
  if Str.stringsContains specRaw p.before then some ⟨p.issueID, p.before, p.after⟩
  else if Str.stringsContains normSpec normBefore then some ⟨p.issueID, normBefore, normAfter⟩
  else none

/-- The warning written for a suggestion whose before-text cannot be located. -/
def skipWarning (issueID : String) : String :=
  "WARN: patch for " ++ issueID ++ " could not be located in spec (before text not matched)\n"

/-- Loop body of Go `GenerateDiff`: accumulator is (output text, warnings). -/
def generateDiffStep (patchTextFn : String → String → String) (specRaw normSpec : String)
    (acc : String × List String) (p : schema.Patch) : String × List String :=
  match resolve p specRaw normSpec with
  | none => (acc.1, acc.2 ++ [skipWarning p.issueID])
  | some dp =>
    let patchText := patchTextFn dp.before dp.after
    if patchText == "" then acc
    else (acc.1 ++ "# patch for " ++ dp.issueID ++ "\n" ++ patchText ++ "\n", acc.2)

/-- Go `patch.GenerateDiff`, instrumented to return the warnings written to
`w` as a list. The diff engine (the third-party diffmatchpatch dependency,
outside this repository) is the parameter `patchTextFn before after`, standing
for `PatchToText(PatchMake(before, DiffMain(before, after, false)))`; theorems
that rely on its behaviour state that behaviour as an explicit hypothesis. -/
def GenerateDiff (patchTextFn : String → String → String) (specRaw : String)
    (patches : List schema.Patch) : String × List String :=
  if patches.isEmpty then ("", [])
  else
    let normSpec := normalize specRaw
    patches.foldl (generateDiffStep patchTextFn specRaw normSpec) ("", [])

end patch

/-- The fixed set of category strings `sanitizeErrForPrompt` can produce. -/
def sanitizeCategories : List String :=
  ["JSON syntax error",
   "invalid enum value (severity must be INFO, WARN, or CRITICAL)",
   "invalid enum value (unknown defect category)",
   "missing required field",
   "invalid ID format",
   "invalid line range in evidence",
   "schema validation error"]

/-- Specification-side meaning of "sub occurs as a substring of s". -/
def StrContainsSpec (s sub : String) : Prop :=
  ∃ l r, s.data = l ++ sub.data ++ r

/-- A concrete schema-valid report used to instantiate validation theorems. -/
def sampleValidReport : schema.Report :=
  ⟨[sampleInfoIssue], [sampleCriticalQuestion], []⟩

/-- Concrete patch entries that violate every documented patch convention
(empty issue_id, unmatched issue_id, wrong format, empty before/after). -/
def sampleBadPatches : List schema.Patch :=
  [⟨"", "x", "y"⟩, ⟨"NOPE", "", ""⟩, ⟨"ISSUE-9999", "", ""⟩]

/-- A concrete evidence entry within bounds for a 10-line document. -/
def sampleEvidence : schema.Evidence := ⟨"spec.md", 2, 5, "quote"⟩

/-- A concrete schema-valid issue carrying evidence. -/
def sampleEvidencedIssue : schema.Issue :=
  ⟨"ISSUE-0004", "INFO", "AMBIGUOUS_BEHAVIOR", "t", "", [sampleEvidence], "", "", false, []⟩

/-- A concrete schema-valid report carrying evidence. -/
def sampleEvidencedReport : schema.Report := ⟨[sampleEvidencedIssue], [], []⟩

/-- An issue with a malformed ID (fails the first check of `validateIssue`). -/
def sampleBadIssueA : schema.Issue :=
  ⟨"bad", "INFO", "CONTRADICTION", "t", "", [], "", "", false, []⟩

/-- An issue with an invalid severity (fails the second check of `validateIssue`). -/
def sampleBadIssueB : schema.Issue :=
  ⟨"ISSUE-0002", "HUGE", "CONTRADICTION", "t", "", [], "", "", false, []⟩

/-- A report whose first two issues are both invalid, for fail-fast theorems. -/
def sampleDoubleBadReport : schema.Report := ⟨[sampleBadIssueA, sampleBadIssueB], [], []⟩

/-- A concrete stand-in diff engine: empty patch text exactly on identical
inputs (the property of diffmatchpatch the anchoring theorems rely on). -/
def sampleDiffEngine : String → String → String :=
  fun b a => if b == a then "" else "@@ -" ++ b ++ " +" ++ a

/-- A concrete document for patch-anchoring theorems (note the trailing space
on the first line). -/
def sampleSpecText : String := "alpha \nbeta\n"

/-- A suggestion whose before-text occurs verbatim in `sampleSpecText`. -/
def samplePatchExact : schema.Patch := ⟨"ISSUE-0007", "beta", "BETA"⟩

/-- A suggestion whose before-text matches `sampleSpecText` only after
trailing-whitespace normalization. -/
def samplePatchNorm : schema.Patch := ⟨"ISSUE-0008", "alpha\nbeta", "gamma\nbeta"⟩

/-- A suggestion whose before-text matches nothing in `sampleSpecText`. -/
def samplePatchMiss : schema.Patch := ⟨"ISSUE-0009", "zzz", "yyy"⟩

/-- C2 helper: scoreStep folded from any start equals the start minus the tallied deductions. -/
theorem scoreStep_foldl (issues : List schema.Issue) (s : Int) :
    issues.foldl review.scoreStep s =
      s - 20 * (countCritical issues : Int) - 7 * (countWarn issues : Int) -
        2 * (countInfo issues : Int) := by
  induction issues generalizing s with
  | nil => simp [countCritical, countWarn, countInfo]
  | cons issue rest ih =>
    simp only [List.foldl_cons, countCritical, countWarn, countInfo, List.countP_cons] at *
    rw [ih]
    unfold review.scoreStep
    by_cases hc : issue.severity == schema.SeverityCritical
    · have hw : (issue.severity == schema.SeverityWarn) = false := by
        simp only [beq_iff_eq] at hc ⊢; rw [hc]; decide
      have hi : (issue.severity == schema.SeverityInfo) = false := by
        simp only [beq_iff_eq] at hc ⊢; rw [hc]; decide
      simp only [hc, hw, hi, if_true, if_false]
      push_cast
      ring
    · by_cases hw : issue.severity == schema.SeverityWarn
      · have hi : (issue.severity == schema.SeverityInfo) = false := by
          simp only [beq_iff_eq] at hw ⊢; rw [hw]; decide
        simp only [hc, hw, hi, if_true, if_false, Bool.false_eq_true]
        push_cast
        ring
      · by_cases hi : issue.severity == schema.SeverityInfo
        · simp only [hc, hw, hi, if_true, if_false, Bool.false_eq_true]
          push_cast
          ring
        · simp only [hc, hw, hi, if_false, Bool.false_eq_true]
          push_cast
          ring

/-- C2 helper: countsStep folded from any start adds the tallies componentwise. -/
theorem countsStep_foldl (issues : List schema.Issue) (c : Nat × Nat × Nat) :
    issues.foldl review.countsStep c =
      (c.1 + countCritical issues, c.2.1 + countWarn issues, c.2.2 + countInfo issues) := by
  induction issues generalizing c with
  | nil => simp [countCritical, countWarn, countInfo]
  | cons issue rest ih =>
    simp only [List.foldl_cons, countCritical, countWarn, countInfo, List.countP_cons] at *
    rw [ih]
    unfold review.countsStep
    by_cases hc : issue.severity == schema.SeverityCritical
    · have hw : (issue.severity == schema.SeverityWarn) = false := by
        simp only [beq_iff_eq] at hc ⊢; rw [hc]; decide
      have hi : (issue.severity == schema.SeverityInfo) = false := by
        simp only [beq_iff_eq] at hc ⊢; rw [hc]; decide
      simp [hc, hw, hi, Prod.ext_iff] <;> omega
    · by_cases hw : issue.severity == schema.SeverityWarn
      · have hi : (issue.severity == schema.SeverityInfo) = false := by
          simp only [beq_iff_eq] at hw ⊢; rw [hw]; decide
        simp [hc, hw, hi, Prod.ext_iff] <;> omega
      · by_cases hi : issue.severity == schema.SeverityInfo
        · simp [hc, hw, hi, Prod.ext_iff] <;> omega
        · simp [hc, hw, hi, Prod.ext_iff] <;> omega

/-- C2: `Score(issues)` equals 100 minus 20 per CRITICAL, 7 per WARN, 2 per
INFO issue, clamped below at 0; it always lies in [0, 100]; `Counts` tallies
the same pre-filter counts the formula uses; six CRITICAL issues and nothing
else score 0. Questions cannot affect the score: `Score` does not receive
them at all. -/
theorem score_matches_deduction_formula (issues : List schema.Issue) :
    review.Score issues =
      max 0 (100 - 20 * (countCritical issues : Int) - 7 * (countWarn issues : Int) -
        2 * (countInfo issues : Int))
  ∧ 0 ≤ review.Score issues ∧ review.Score issues ≤ 100
  ∧ review.Counts issues = (countCritical issues, countWarn issues, countInfo issues)
  ∧ ((∀ i ∈ issues, i.severity = schema.SeverityCritical) → issues.length = 6 →
      review.Score issues = 0) := by
  have hform : review.Score issues =
      max 0 (100 - 20 * (countCritical issues : Int) - 7 * (countWarn issues : Int) -
        2 * (countInfo issues : Int)) := by
    simp only [review.Score]
    rw [scoreStep_foldl]
    split <;> omega
  refine ⟨hform, ?_, ?_, ?_, ?_⟩
  · rw [hform]; omega
  · rw [hform]; omega
  · simp only [review.Counts]
    rw [countsStep_foldl]
    simp
  · intro hall hlen
    have hcrit : countCritical issues = 6 := by
      have : countCritical issues = issues.length := by
        apply List.countP_eq_length.mpr
        intro i hi
        simp [hall i hi]
      omega
    have hwz : countWarn issues = 0 := by
      apply List.countP_eq_zero.mpr
      intro i hi
      rw [hall i hi]
      decide
    have hiz : countInfo issues = 0 := by
      apply List.countP_eq_zero.mpr
      intro i hi
      rw [hall i hi]
      decide
    rw [hform, hcrit, hwz, hiz]
    omega

/-- C2 witness: six CRITICAL issues and nothing else score 0. -/
theorem score_matches_deduction_formula_witness :
    review.Score (List.replicate 6 sampleCriticalIssue) = 0 :=
  (score_matches_deduction_formula (List.replicate 6 sampleCriticalIssue)).2.2.2.2
    (by
      intro i hi
      rw [(List.mem_replicate.mp hi).2]
      rfl)
    (by simp)

/-- C1: `Verdict` returns INVALID when any issue or question is CRITICAL
(in particular for an empty issue list with a CRITICAL question), otherwise
VALID_WITH_GAPS when any issue is WARN, otherwise VALID_WITH_GAPS when the
issue list is non-empty, and VALID only when no CRITICAL finding exists and
the issue list is empty. -/
theorem verdict_cases (issues : List schema.Issue) (questions : List schema.Question) :
    (((∃ i ∈ issues, i.severity = schema.SeverityCritical) ∨
        (∃ q ∈ questions, q.severity = schema.SeverityCritical)) →
      review.Verdict issues questions = schema.VerdictInvalid)
  ∧ (¬((∃ i ∈ issues, i.severity = schema.SeverityCritical) ∨
        (∃ q ∈ questions, q.severity = schema.SeverityCritical)) →
      (∃ i ∈ issues, i.severity = schema.SeverityWarn) →
      review.Verdict issues questions = schema.VerdictValidWithGaps)
  ∧ (¬((∃ i ∈ issues, i.severity = schema.SeverityCritical) ∨
        (∃ q ∈ questions, q.severity = schema.SeverityCritical)) →
      issues ≠ [] →
      review.Verdict issues questions = schema.VerdictValidWithGaps)
  ∧ (¬((∃ i ∈ issues, i.severity = schema.SeverityCritical) ∨
        (∃ q ∈ questions, q.severity = schema.SeverityCritical)) →
      issues = [] →
      review.Verdict issues questions = schema.VerdictValid) := by
  unfold review.Verdict
  simp only [List.any_eq_true, beq_iff_eq]
  refine ⟨?_, ?_, ?_, ?_⟩
  · rintro (⟨i, hi, hs⟩ | ⟨q, hq, hs⟩)
    · rw [if_pos ⟨i, hi, hs⟩]
    · by_cases hci : ∃ i ∈ issues, i.severity = schema.SeverityCritical
      · rw [if_pos hci]
      · rw [if_neg hci, if_pos ⟨q, hq, hs⟩]
  · intro hnc hw
    push_neg at hnc
    rw [if_neg (by simpa using hnc.1), if_neg (by simpa using hnc.2), if_pos hw]
  · intro hnc hne
    push_neg at hnc
    rw [if_neg (by simpa using hnc.1), if_neg (by simpa using hnc.2)]
    by_cases hw : ∃ i ∈ issues, i.severity = schema.SeverityWarn
    · rw [if_pos hw]
    · rw [if_neg hw, if_pos (by simpa using List.length_pos.mpr hne)]
  · intro hnc he
    subst he
    push_neg at hnc
    rw [if_neg (by simp), if_neg (by simpa using hnc.2), if_neg (by simp)]
    simp

/-- C1 witness: zero issues and a single CRITICAL question yield INVALID. -/
theorem verdict_cases_witness :
    review.Verdict [] [sampleCriticalQuestion] = schema.VerdictInvalid :=
  (verdict_cases [] [sampleCriticalQuestion]).1
    (Or.inr ⟨sampleCriticalQuestion, List.mem_singleton.mpr rfl, rfl⟩)

/-- C3: the emitted summary is built from the full unfiltered issues and
questions, is identical for every severity-threshold value, and the severity
filter is applied only to the emitted issues list afterwards. -/
theorem summary_unaffected_by_severity_filter (issues : List schema.Issue)
    (questions : List schema.Question) (t t' : String) :
    (main.summarizeAndFilter issues questions t).1 = (main.summarizeAndFilter issues questions t').1
  ∧ (main.summarizeAndFilter issues questions t).1 =
      ⟨review.Verdict issues questions, review.Score issues,
       (review.Counts issues).1, (review.Counts issues).2.1, (review.Counts issues).2.2⟩
  ∧ (main.summarizeAndFilter issues questions t).2 =
      review.FilterBySeverity issues (main.parseSeverityThreshold t) :=
  ⟨rfl, rfl, rfl⟩

/-- C8: on issue lists whose severities are among the three valid values and
thresholds among the three valid values, `FilterBySeverity` keeps exactly the
issues whose severity ordinal meets the threshold ordinal, preserves relative
order (the result is a sublist of the input), and is the identity at
threshold INFO. -/
theorem filter_by_severity_spec (issues : List schema.Issue) (t : schema.Severity)
    (ht : t = schema.SeverityInfo ∨ t = schema.SeverityWarn ∨ t = schema.SeverityCritical)
    (hv : ∀ i ∈ issues, i.severity = schema.SeverityInfo ∨ i.severity = schema.SeverityWarn ∨
      i.severity = schema.SeverityCritical) :
    review.FilterBySeverity issues t =
      issues.filter (fun i => decide (review.severityOrdinal i.severity ≥ review.severityOrdinal t))
  ∧ (review.FilterBySeverity issues t).Sublist issues
  ∧ review.FilterBySeverity issues schema.SeverityInfo = issues := by
  refine ⟨?_, ?_, rfl⟩
  · rcases ht with h | h | h
    · subst h
      unfold review.FilterBySeverity
      rw [if_pos (by rfl)]
      symm
      apply List.filter_eq_self.mpr
      intro i hi
      rcases hv i hi with hs | hs | hs <;> rw [hs] <;> decide
    · subst h
      unfold review.FilterBySeverity
      rw [if_neg (by decide)]
      rfl
    · subst h
      unfold review.FilterBySeverity
      rw [if_neg (by decide)]
      rfl
  · unfold review.FilterBySeverity
    split
    · exact List.Sublist.refl issues
    · exact List.filter_sublist issues

/-- C8 witness: filtering an INFO+WARN list at threshold WARN. -/
theorem filter_by_severity_spec_witness :
    review.FilterBySeverity [sampleInfoIssue, sampleWarnIssue] schema.SeverityWarn =
      List.filter
        (fun i => decide (review.severityOrdinal i.severity ≥
          review.severityOrdinal schema.SeverityWarn)) [sampleInfoIssue, sampleWarnIssue]
  ∧ (review.FilterBySeverity [sampleInfoIssue, sampleWarnIssue] schema.SeverityWarn).Sublist
      [sampleInfoIssue, sampleWarnIssue]
  ∧ review.FilterBySeverity [sampleInfoIssue, sampleWarnIssue] schema.SeverityInfo =
      [sampleInfoIssue, sampleWarnIssue] :=
  filter_by_severity_spec [sampleInfoIssue, sampleWarnIssue] schema.SeverityWarn
    (Or.inr (Or.inl rfl)) (by decide)

/-- Validator helper: `validateEvidence` succeeds exactly on the line-bound
invariant (upper bound only enforced for positive lineCount). -/
theorem validateEvidence_ok_iff (ev : schema.Evidence) (pre : String) (lc : Int) :
    validate.validateEvidence ev pre lc = .ok () ↔
      1 ≤ ev.lineStart ∧ ev.lineStart ≤ ev.lineEnd ∧ (0 < lc → ev.lineEnd ≤ lc) := by
  unfold validate.validateEvidence
  split_ifs with h1 h2 h3
  · exact ⟨fun h => by simp at h, fun hb => by exfalso; omega⟩
  · exact ⟨fun h => by simp at h, fun hb => by exfalso; omega⟩
  · refine ⟨fun h => by simp at h, fun hb => ?_⟩
    exfalso
    have := hb.2.2 h3.1
    omega
  · refine ⟨fun _ => ⟨by omega, by omega, fun hpos => ?_⟩, fun _ => rfl⟩
    push_neg at h3
    exact h3 hpos

/-- Validator helper: `validateSeq` succeeds iff the body succeeds on every
element at its index. -/
theorem validateSeq_ok_iff {α : Type} (f : α → Nat → Int → Except validate.VErr Unit)
    (l : List α) (k : Nat) (lc : Int) :
    validate.validateSeq f l k lc = .ok () ↔
      ∀ j x, l[j]? = some x → f x (k + j) lc = .ok () := by
  induction l generalizing k with
  | nil => simp [validate.validateSeq]
  | cons a rest ih =>
    unfold validate.validateSeq
    cases hva : f a k lc with
    | error e =>
      constructor
      · intro h
        exact Except.noConfusion h
      · intro hall
        have h0 := hall 0 a (by simp)
        rw [Nat.add_zero, hva] at h0
        exact Except.noConfusion h0
    | ok u =>
      cases u
      rw [ih (k + 1)]
      constructor
      · intro h j x hj
        cases j with
        | zero =>
          simp only [List.getElem?_cons_zero, Option.some.injEq] at hj
          subst hj
          rw [Nat.add_zero]
          exact hva
        | succ j =>
          have hj2 : rest[j]? = some x := by simpa using hj
          have := h j x hj2
          have harith : k + 1 + j = k + (j + 1) := by omega
          rw [harith] at this
          exact this
      · intro h j x hj
        have := h (j + 1) x (by simpa using hj)
        have harith : k + (j + 1) = k + 1 + j := by omega
        rw [harith] at this
        exact this

/-- Validator helper: `validateSeq` returns an error iff that error is the
body's error at the FIRST failing index, all earlier elements passing. -/
theorem validateSeq_error_iff {α : Type} (f : α → Nat → Int → Except validate.VErr Unit)
    (l : List α) (k : Nat) (lc : Int) (e : validate.VErr) :
    validate.validateSeq f l k lc = .error e ↔
      ∃ j x, l[j]? = some x ∧ f x (k + j) lc = .error e ∧
        ∀ m y, m < j → l[m]? = some y → f y (k + m) lc = .ok () := by
  induction l generalizing k with
  | nil => simp [validate.validateSeq]
  | cons a rest ih =>
    unfold validate.validateSeq
    cases hva : f a k lc with
    | error e2 =>
      constructor
      · intro h
        have he : e2 = e := by
          cases h
          rfl
        refine ⟨0, a, by simp, ?_, ?_⟩
        · rw [Nat.add_zero, hva, he]
        · intro m y hm _
          exact absurd hm (Nat.not_lt_zero m)
      · rintro ⟨j, x, hj, herr, hall⟩
        cases j with
        | zero =>
          simp only [List.getElem?_cons_zero, Option.some.injEq] at hj
          subst hj
          rw [Nat.add_zero, hva] at herr
          exact herr
        | succ j =>
          have h0 := hall 0 a (by omega) (by simp)
          rw [Nat.add_zero, hva] at h0
          exact Except.noConfusion h0
    | ok u =>
      cases u
      rw [ih (k + 1)]
      constructor
      · rintro ⟨j, x, hj, herr, hall⟩
        refine ⟨j + 1, x, by simpa using hj, ?_, ?_⟩
        · have harith : k + (j + 1) = k + 1 + j := by omega
          rw [harith]
          exact herr
        · intro m y hm hm2
          cases m with
          | zero =>
            simp only [List.getElem?_cons_zero, Option.some.injEq] at hm2
            subst hm2
            rw [Nat.add_zero]
            exact hva
          | succ m =>
            have := hall m y (by omega) (by simpa using hm2)
            have harith : k + (m + 1) = k + 1 + m := by omega
            rw [harith]
            exact this
      · rintro ⟨j, x, hj, herr, hall⟩
        cases j with
        | zero =>
          simp only [List.getElem?_cons_zero, Option.some.injEq] at hj
          subst hj
          rw [Nat.add_zero, hva] at herr
          exact Except.noConfusion herr
        | succ j =>
          refine ⟨j, x, by simpa using hj, ?_, ?_⟩
          · have harith : k + 1 + j = k + (j + 1) := by omega
            rw [harith]
            exact herr
          · intro m y hm hm2
            have := hall (m + 1) y (by omega) (by simpa using hm2)
            have harith : k + 1 + m = k + (m + 1) := by omega
            rw [harith]
            exact this

/-- Validator helper: an issue that validates has a fully validated evidence list. -/
theorem validateIssue_ok_evidenceList (issue : schema.Issue) (idx : Nat) (lc : Int)
    (h : validate.validateIssue issue idx lc = .ok ()) :
    validate.validateEvidenceList issue.evidence ("issue[" ++ toString idx ++ "]") 0 lc =
      .ok () := by
  simp only [validate.validateIssue] at h
  split at h
  · simp at h
  · split at h
    · simp at h
    · split at h
      · simp at h
      · split at h
        · simp at h
        · exact h

/-- Validator helper: a question that validates has a fully validated evidence list. -/
theorem validateQuestion_ok_evidenceList (q : schema.Question) (idx : Nat) (lc : Int)
    (h : validate.validateQuestion q idx lc = .ok ()) :
    validate.validateEvidenceList q.evidence ("question[" ++ toString idx ++ "]") 0 lc =
      .ok () := by
  simp only [validate.validateQuestion] at h
  split at h
  · simp at h
  · split at h
    · simp at h
    · split at h
      · simp at h
      · exact h

/-- Validator helper: the evidence loop succeeds iff every entry satisfies the
line-bound invariant. -/
theorem validateEvidenceList_ok_iff (evs : List schema.Evidence) (pre : String) (j0 : Nat)
    (lc : Int) :
    validate.validateEvidenceList evs pre j0 lc = .ok () ↔
      ∀ ev ∈ evs, 1 ≤ ev.lineStart ∧ ev.lineStart ≤ ev.lineEnd ∧ (0 < lc → ev.lineEnd ≤ lc) := by
  unfold validate.validateEvidenceList
  rw [validateSeq_ok_iff]
  constructor
  · intro h ev hev
    obtain ⟨j, hj⟩ := List.mem_iff_getElem?.mp hev
    exact (validateEvidence_ok_iff _ _ _).mp (h j ev hj)
  · intro h j ev hj
    have hev : ev ∈ evs := List.mem_iff_getElem?.mpr ⟨j, hj⟩
    exact (validateEvidence_ok_iff _ _ _).mpr (h ev hev)

/-- C7: an evidence entry passes `validateEvidence` exactly when
1 ≤ lineStart ≤ lineEnd and, for positive sourceLineCount, lineEnd ≤
sourceLineCount; a sourceLineCount of 0 disables the upper bound; and a
report accepted by `validateReport` has every evidence entry of every issue
and question within these bounds. -/
theorem evidence_line_bounds (r : schema.Report) (lc : Int) :
    (∀ ev pre, validate.validateEvidence ev pre lc = .ok () ↔
      1 ≤ ev.lineStart ∧ ev.lineStart ≤ ev.lineEnd ∧ (0 < lc → ev.lineEnd ≤ lc))
  ∧ (lc = 0 → ∀ ev pre, validate.validateEvidence ev pre lc = .ok () ↔
      1 ≤ ev.lineStart ∧ ev.lineStart ≤ ev.lineEnd)
  ∧ (validate.validateReport r lc = .ok () →
      (∀ issue ∈ r.issues, ∀ ev ∈ issue.evidence,
        1 ≤ ev.lineStart ∧ ev.lineStart ≤ ev.lineEnd ∧ (0 < lc → ev.lineEnd ≤ lc))
    ∧ (∀ q ∈ r.questions, ∀ ev ∈ q.evidence,
        1 ≤ ev.lineStart ∧ ev.lineStart ≤ ev.lineEnd ∧ (0 < lc → ev.lineEnd ≤ lc))) := by
  refine ⟨fun ev pre => validateEvidence_ok_iff ev pre lc, ?_, ?_⟩
  · intro h0 ev pre
    rw [validateEvidence_ok_iff]
    constructor
    · rintro ⟨h1, h2, _⟩
      exact ⟨h1, h2⟩
    · rintro ⟨h1, h2⟩
      exact ⟨h1, h2, fun hpos => by omega⟩
  · intro hok
    unfold validate.validateReport at hok
    cases hIss : validate.validateSeq validate.validateIssue r.issues 0 lc with
    | error e =>
      rw [hIss] at hok
      simp at hok
    | ok u =>
      cases u
      rw [hIss] at hok
      simp only [] at hok
      constructor
      · intro issue hissue ev hev
        obtain ⟨j, hj⟩ := List.mem_iff_getElem?.mp hissue
        have hvi := (validateSeq_ok_iff _ _ _ _).mp hIss j issue hj
        rw [Nat.zero_add] at hvi
        exact (validateEvidenceList_ok_iff _ _ _ _).mp
          (validateIssue_ok_evidenceList issue j lc hvi) ev hev
      · intro q hq ev hev
        obtain ⟨j, hj⟩ := List.mem_iff_getElem?.mp hq
        have hvq := (validateSeq_ok_iff _ _ _ _).mp hok j q hj
        rw [Nat.zero_add] at hvq
        exact (validateEvidenceList_ok_iff _ _ _ _).mp
          (validateQuestion_ok_evidenceList q j lc hvq) ev hev

/-- C7 witness: the accepted `sampleEvidencedReport` against a 10-line
document has its evidence within bounds. -/
theorem evidence_line_bounds_witness :
    (∀ issue ∈ sampleEvidencedReport.issues, ∀ ev ∈ issue.evidence,
      1 ≤ ev.lineStart ∧ ev.lineStart ≤ ev.lineEnd ∧ ((0 : Int) < 10 → ev.lineEnd ≤ 10))
  ∧ (∀ q ∈ sampleEvidencedReport.questions, ∀ ev ∈ q.evidence,
      1 ≤ ev.lineStart ∧ ev.lineStart ≤ ev.lineEnd ∧ ((0 : Int) < 10 → ev.lineEnd ≤ 10)) :=
  (evidence_line_bounds sampleEvidencedReport 10).2.2 (by rfl)

/-- C10: validation never inspects the patches array — replacing it changes
nothing about the validation outcome, and a report whose issues and questions
validate is accepted by `Parse` whatever its patches contain. -/
theorem patches_never_validated (r : schema.Report) (lc : Int) (ps : List schema.Patch) :
    validate.validateReport { r with patches := ps } lc = validate.validateReport r lc
  ∧ (validate.validateReport r lc = .ok () →
      validate.Parse (.ok { r with patches := ps }) lc = .ok { r with patches := ps }) := by
  refine ⟨rfl, fun h => ?_⟩
  have h2 : validate.validateReport { r with patches := ps } lc = .ok () := h
  simp [validate.Parse, h2]

/-- C10 witness: a valid report with empty, unmatched, and malformed patch
entries still parses. -/
theorem patches_never_validated_witness :
    validate.Parse (.ok { sampleValidReport with patches := sampleBadPatches }) 10 =
      .ok { sampleValidReport with patches := sampleBadPatches } :=
  (patches_never_validated sampleValidReport 10 sampleBadPatches).2 (by rfl)

/-- C6 helper: `sanitizeErrForPrompt` always lands in the fixed category set,
independent of the message content. -/
theorem sanitize_mem_categories (msg : String) :
    main.sanitizeErrForPrompt msg ∈ sanitizeCategories := by
  unfold main.sanitizeErrForPrompt
  split_ifs <;> simp [sanitizeCategories]

/-- C6: validation is fail-fast and all-or-nothing — `validateReport` accepts
exactly when every issue and question validates; it returns precisely the
error of the first failing finding (all earlier findings passing); a rejected
report makes `Parse` reject with that same error (no partial acceptance); and
the category string echoed into the repair prompt always comes from the fixed
enumerable set, never from model text. -/
theorem validation_fail_fast_all_or_nothing (r : schema.Report) (lc : Int) :
    (validate.validateReport r lc = .ok () ↔
      (∀ j i, r.issues[j]? = some i → validate.validateIssue i j lc = .ok ()) ∧
      (∀ j q, r.questions[j]? = some q → validate.validateQuestion q j lc = .ok ()))
  ∧ (∀ e, validate.validateReport r lc = .error e ↔
      ((∃ j i, r.issues[j]? = some i ∧ validate.validateIssue i j lc = .error e ∧
          ∀ m i2, m < j → r.issues[m]? = some i2 → validate.validateIssue i2 m lc = .ok ()) ∨
       ((∀ j i, r.issues[j]? = some i → validate.validateIssue i j lc = .ok ()) ∧
        ∃ j q, r.questions[j]? = some q ∧ validate.validateQuestion q j lc = .error e ∧
          ∀ m q2, m < j → r.questions[m]? = some q2 → validate.validateQuestion q2 m lc = .ok ())))
  ∧ (∀ e, validate.validateReport r lc = .error e → validate.Parse (.ok r) lc = .error e)
  ∧ (∀ msg, main.sanitizeErrForPrompt msg ∈ sanitizeCategories) := by
  have hIssOk := validateSeq_ok_iff validate.validateIssue r.issues 0 lc
  have hQOk := validateSeq_ok_iff validate.validateQuestion r.questions 0 lc
  simp only [Nat.zero_add] at hIssOk hQOk
  refine ⟨?_, ?_, ?_, sanitize_mem_categories⟩
  · constructor
    · intro h
      unfold validate.validateReport at h
      cases hIss : validate.validateSeq validate.validateIssue r.issues 0 lc with
      | error e =>
        rw [hIss] at h
        simp at h
      | ok u =>
        cases u
        rw [hIss] at h
        have h2 : validate.validateSeq validate.validateQuestion r.questions 0 lc = .ok () := h
        exact ⟨hIssOk.mp hIss, hQOk.mp h2⟩
    · rintro ⟨hA, hB⟩
      unfold validate.validateReport
      rw [hIssOk.mpr hA]
      exact hQOk.mpr hB
  · intro e
    have hIssErr := validateSeq_error_iff validate.validateIssue r.issues 0 lc e
    have hQErr := validateSeq_error_iff validate.validateQuestion r.questions 0 lc e
    simp only [Nat.zero_add] at hIssErr hQErr
    constructor
    · intro h
      unfold validate.validateReport at h
      cases hIss : validate.validateSeq validate.validateIssue r.issues 0 lc with
      | error e2 =>
        rw [hIss] at h
        have h2 : (Except.error e2 : Except validate.VErr Unit) = .error e := h
        have he : e2 = e := by injection h2
        subst he
        exact Or.inl (hIssErr.mp hIss)
      | ok u =>
        cases u
        rw [hIss] at h
        have h2 : validate.validateSeq validate.validateQuestion r.questions 0 lc = .error e := h
        exact Or.inr ⟨hIssOk.mp hIss, hQErr.mp h2⟩
    · intro hcase
      unfold validate.validateReport
      rcases hcase with hI | ⟨hok, hQ⟩
      · rw [hIssErr.mpr hI]
      · rw [hIssOk.mpr hok]
        exact hQErr.mpr hQ
  · intro e h
    simp [validate.Parse, h]

/-- C6 witness: a report whose first two issues are both invalid is rejected
with exactly the first issue's error. -/
theorem validation_fail_fast_witness :
    validate.validateReport sampleDoubleBadReport 0 =
      .error (validate.VErr.issueIDFormat "issue[0]" "bad") :=
  ((validation_fail_fast_all_or_nothing sampleDoubleBadReport 0).2.1
      (validate.VErr.issueIDFormat "issue[0]" "bad")).mpr
    (Or.inl ⟨0, sampleBadIssueA, rfl, rfl,
      fun m _ hm _ => absurd hm (Nat.not_lt_zero m)⟩)

/-- C5: the orchestrator calls `Complete` at most twice; every request reuses
the original system prompt, temperature, and max-tokens budget; and after a
first-attempt validation failure exactly one repair call is made whose user
prompt is the original user prompt plus the fixed suffix naming only the
sanitized category of the validation error. -/
theorem repair_budget_and_prompt (complete : Nat → main.Request → Except String main.Response)
    (req : main.Request) (lineCount : Int) :
    (main.callWithRetry complete req lineCount).2.length ≤ 2
  ∧ (∀ r2 ∈ (main.callWithRetry complete req lineCount).2,
      r2.systemPrompt = req.systemPrompt ∧ r2.temperature = req.temperature ∧
      r2.maxTokens = req.maxTokens)
  ∧ ((main.callWithRetry complete req lineCount).2 = [req] ∨
      ∃ cat ∈ sanitizeCategories,
        (main.callWithRetry complete req lineCount).2 =
          [req, { req with userPrompt := req.userPrompt ++ main.repairSuffix cat }])
  ∧ (∀ resp, complete 0 req = .ok resp → ∀ e, validate.Parse resp.content lineCount = .error e →
      (main.callWithRetry complete req lineCount).2 =
        [req, { req with userPrompt := req.userPrompt ++
          main.repairSuffix (main.sanitizeErrForPrompt (validate.VErr.message e)) }]) := by
  cases h0 : complete 0 req with
  | error e =>
    simp only [main.callWithRetry, h0]
    refine ⟨by simp, ?_, Or.inl trivial, ?_⟩
    · intro r2 hr2
      simp only [List.mem_singleton] at hr2
      subst hr2
      exact ⟨rfl, rfl, rfl⟩
    · intro resp hresp
      exact absurd hresp (by simp)
  | ok resp =>
    cases hp : validate.Parse resp.content lineCount with
    | ok report =>
      simp only [main.callWithRetry, h0, hp]
      refine ⟨by simp, ?_, Or.inl trivial, ?_⟩
      · intro r2 hr2
        simp only [List.mem_singleton] at hr2
        subst hr2
        exact ⟨rfl, rfl, rfl⟩
      · intro resp2 hresp2 e2 he2
        have hr : resp2 = resp := by
          injection hresp2 with h
          exact h.symm
        subst hr
        rw [hp] at he2
        exact absurd he2 (by simp)
    | error parseErr =>
      simp only [main.callWithRetry, h0, hp]
      cases h1 : complete 1
          { req with userPrompt :=
              req.userPrompt ++ main.repairSuffix (main.sanitizeErrForPrompt parseErr.message) } with
      | error e3 =>
        simp only [h1]
        refine ⟨by simp, ?_, ?_, ?_⟩
        · intro r2 hr2
          simp only [List.mem_cons, List.not_mem_nil, or_false] at hr2
          rcases hr2 with hr2 | hr2 <;> subst hr2 <;> exact ⟨rfl, rfl, rfl⟩
        · exact Or.inr ⟨main.sanitizeErrForPrompt parseErr.message,
            sanitize_mem_categories parseErr.message, rfl⟩
        · intro resp2 hresp2 e2 he2
          have hr : resp2 = resp := by
            injection hresp2 with h
            exact h.symm
          subst hr
          rw [hp] at he2
          have he : parseErr = e2 := by injection he2
          subst he
          rfl
      | ok resp2 =>
        cases hp2 : validate.Parse resp2.content lineCount with
        | ok report2 =>
          simp only [h1, hp2]
          refine ⟨by simp, ?_, ?_, ?_⟩
          · intro r2 hr2
            simp only [List.mem_cons, List.not_mem_nil, or_false] at hr2
            rcases hr2 with hr2 | hr2 <;> subst hr2 <;> exact ⟨rfl, rfl, rfl⟩
          · exact Or.inr ⟨main.sanitizeErrForPrompt parseErr.message,
              sanitize_mem_categories parseErr.message, rfl⟩
          · intro resp3 hresp3 e2 he2
            have hr : resp3 = resp := by
              injection hresp3 with h
              exact h.symm
            subst hr
            rw [hp] at he2
            have he : parseErr = e2 := by injection he2
            subst he
            rfl
        | error parseErr2 =>
          simp only [h1, hp2]
          refine ⟨by simp, ?_, ?_, ?_⟩
          · intro r2 hr2
            simp only [List.mem_cons, List.not_mem_nil, or_false] at hr2
            rcases hr2 with hr2 | hr2 <;> subst hr2 <;> exact ⟨rfl, rfl, rfl⟩
          · exact Or.inr ⟨main.sanitizeErrForPrompt parseErr.message,
              sanitize_mem_categories parseErr.message, rfl⟩
          · intro resp3 hresp3 e2 he2
            have hr : resp3 = resp := by
              injection hresp3 with h
              exact h.symm
            subst hr
            rw [hp] at he2
            have he : parseErr = e2 := by injection he2
            subst he
            rfl

/-- C5 witness: a provider whose output never decodes triggers exactly one
repair request whose user prompt appends the fixed "JSON syntax error"
category suffix. -/
theorem repair_budget_and_prompt_witness :
    (main.callWithRetry main.completeAlwaysGarbage main.sampleRequest 0).2 =
      [main.sampleRequest,
       { main.sampleRequest with userPrompt :=
          main.sampleRequest.userPrompt ++ main.repairSuffix "JSON syntax error" }] :=
  (repair_budget_and_prompt main.completeAlwaysGarbage main.sampleRequest 0).2.2.2
    ⟨.error "unexpected end of JSON input", "test-model"⟩ rfl
    (validate.VErr.jsonParseFailed "unexpected end of JSON input") rfl

/-- C4: `callWithRetry` does return disjoint error shapes — `llmCallFailed`
for a transport failure on the first attempt and
`invalidModelOutputAfterRetry` for validation failure on both attempts — but
`runCheck` maps BOTH to the same process exit code 5 (`codeError(5, ...)`),
contradicting the claim (and the repository's own SPEC.md exit-code table,
which reserves 4 for LLM/provider errors and 5 for invalid model output). -/
theorem provider_and_validation_errors_share_exit_code :
    (main.callWithRetry main.completeAlwaysUnreachable main.sampleRequest 0).1 =
      .error (.llmCallFailed "connection refused")
  ∧ (main.callWithRetry main.completeAlwaysGarbage main.sampleRequest 0).1 =
      .error (.invalidModelOutputAfterRetry (.jsonParseFailed "unexpected end of JSON input"))
  ∧ main.runCheckCallErrorExitCode (.llmCallFailed "connection refused") = 5
  ∧ main.runCheckCallErrorExitCode
      (.invalidModelOutputAfterRetry (.jsonParseFailed "unexpected end of JSON input")) = 5 :=
  ⟨rfl, rfl, rfl, rfl⟩

/-- String helper: `hasPrefixCL` decides the prefix decomposition. -/
theorem hasPrefixCL_iff (sub l : List Char) :
    Str.hasPrefixCL sub l = true ↔ ∃ t, l = sub ++ t := by
  induction sub generalizing l with
  | nil => simp [Str.hasPrefixCL]
  | cons a sub ih =>
    cases l with
    | nil => simp [Str.hasPrefixCL]
    | cons b t =>
      simp only [Str.hasPrefixCL, Bool.and_eq_true, beq_iff_eq, ih, List.cons_append,
        List.cons.injEq]
      constructor
      · rintro ⟨hab, t2, ht⟩
        exact ⟨t2, hab.symm, ht⟩
      · rintro ⟨t2, hab, ht⟩
        exact ⟨hab.symm, t2, ht⟩

/-- String helper: `hasInfixCL` decides the substring decomposition. -/
theorem hasInfixCL_iff (sub l : List Char) :
    Str.hasInfixCL sub l = true ↔ ∃ s t, l = s ++ sub ++ t := by
  induction l with
  | nil =>
    simp only [Str.hasInfixCL, hasPrefixCL_iff]
    constructor
    · rintro ⟨t, ht⟩
      exact ⟨[], t, by simpa using ht⟩
    · rintro ⟨s, t, ht⟩
      rw [List.append_assoc] at ht
      have h1 := List.append_eq_nil.mp ht.symm
      have h2 := List.append_eq_nil.mp h1.2
      exact ⟨[], by simp [h2.1]⟩
  | cons c t ih =>
    simp only [Str.hasInfixCL, Bool.or_eq_true, hasPrefixCL_iff, ih]
    constructor
    · rintro (⟨r, hr⟩ | ⟨s, r, hr⟩)
      · exact ⟨[], r, by simpa using hr⟩
      · exact ⟨c :: s, r, by simp [hr]⟩
    · rintro ⟨s, r, hr⟩
      cases s with
      | nil => exact Or.inl ⟨r, by simpa using hr⟩
      | cons x xs =>
        rw [List.cons_append, List.cons_append] at hr
        injection hr with h1 h2
        refine Or.inr ⟨xs, r, ?_⟩
        rw [List.append_assoc]
        simpa [List.append_assoc] using h2

/-- `stringsContains` agrees with the specification-side substring relation. -/
theorem stringsContains_iff (s sub : String) :
    Str.stringsContains s sub = true ↔ StrContainsSpec s sub := by
  unfold Str.stringsContains StrContainsSpec
  exact hasInfixCL_iff sub.data s.data

/-- C9: anchoring tries an exact substring match first (anchoring the
original text), falls back to the normalized match (anchoring the normalized
text), drops an unlocatable suggestion with a single warning naming its issue
ID and no hard failure, and an anchored suggestion with identical before and
after contributes no hunk (given a diff engine producing empty patch text on
identical inputs, as diffmatchpatch does). -/
theorem patch_anchor_two_pass (p : schema.Patch) (specRaw : String)
    (fn : String → String → String) :
    (StrContainsSpec specRaw p.before →
      patch.resolve p specRaw (patch.normalize specRaw) =
        some ⟨p.issueID, p.before, p.after⟩)
  ∧ (¬ StrContainsSpec specRaw p.before →
      StrContainsSpec (patch.normalize specRaw) (patch.normalize p.before) →
      patch.resolve p specRaw (patch.normalize specRaw) =
        some ⟨p.issueID, patch.normalize p.before, patch.normalize p.after⟩)
  ∧ (¬ StrContainsSpec specRaw p.before →
      ¬ StrContainsSpec (patch.normalize specRaw) (patch.normalize p.before) →
      patch.resolve p specRaw (patch.normalize specRaw) = none ∧
      patch.GenerateDiff fn specRaw [p] = ("", [patch.skipWarning p.issueID]))
  ∧ ((∀ s, fn s s = "") →
      ∀ dp, patch.resolve p specRaw (patch.normalize specRaw) = some dp →
        dp.before = dp.after →
        patch.GenerateDiff fn specRaw [p] = ("", [])) := by
  refine ⟨?_, ?_, ?_, ?_⟩
  · intro h
    have hc := (stringsContains_iff specRaw p.before).mpr h
    simp [patch.resolve, hc]
  · intro h1 h2
    have hc1 : Str.stringsContains specRaw p.before = false := by
      have hne : ¬ Str.stringsContains specRaw p.before = true :=
        fun hx => h1 ((stringsContains_iff _ _).mp hx)
      simp only [Bool.not_eq_true] at hne
      exact hne
    have hc2 := (stringsContains_iff _ _).mpr h2
    simp [patch.resolve, hc1, hc2]
  · intro h1 h2
    have hc1 : Str.stringsContains specRaw p.before = false := by
      have hne : ¬ Str.stringsContains specRaw p.before = true :=
        fun hx => h1 ((stringsContains_iff _ _).mp hx)
      simp only [Bool.not_eq_true] at hne
      exact hne
    have hc2 : Str.stringsContains (patch.normalize specRaw) (patch.normalize p.before) = false := by
      have hne : ¬ Str.stringsContains (patch.normalize specRaw) (patch.normalize p.before) = true :=
        fun hx => h2 ((stringsContains_iff _ _).mp hx)
      simp only [Bool.not_eq_true] at hne
      exact hne
    have hres : patch.resolve p specRaw (patch.normalize specRaw) = none := by
      simp [patch.resolve, hc1, hc2]
    refine ⟨hres, ?_⟩
    simp [patch.GenerateDiff, patch.generateDiffStep, hres]
  · intro hfn dp hres heq
    have hempty : fn dp.before dp.after = "" := by
      rw [heq]
      exact hfn dp.after
    simp [patch.GenerateDiff, patch.generateDiffStep, hres, hempty]

/-- C9 witness: a before-text matching only after trailing-whitespace
normalization resolves via the normalized pass and anchors the normalized
form. -/
theorem patch_anchor_two_pass_witness :
    patch.resolve samplePatchNorm sampleSpecText (patch.normalize sampleSpecText) =
      some ⟨"ISSUE-0008", patch.normalize "alpha\nbeta", patch.normalize "gamma\nbeta"⟩ := by
  have h1 : ¬ StrContainsSpec sampleSpecText samplePatchNorm.before := by
    intro h
    have hx := (stringsContains_iff sampleSpecText samplePatchNorm.before).mpr h
    rw [show Str.stringsContains sampleSpecText samplePatchNorm.before = false from rfl] at hx
    exact Bool.false_ne_true hx
  have h2 : StrContainsSpec (patch.normalize sampleSpecText)
      (patch.normalize samplePatchNorm.before) :=
    (stringsContains_iff _ _).mp rfl
  exact (patch_anchor_two_pass samplePatchNorm sampleSpecText sampleDiffEngine).2.1 h1 h2
